import Mathlib

/-!
Verification of the SwitchrootDepot download planner and segmented transfer
engine (src/SwitchrootDepot.py), as a shallow embedding in Lean.

String operations from Python (startswith, endswith, substring containment,
split) are modelled on the character list of the string.
-/

/-- Python str.startswith, modelled on the character list. -/
def strStartsWith (s pat : String) : Bool :=
  pat.toList.isPrefixOf s.toList

/-- Python str.endswith, modelled on the character list. -/
def strEndsWith (s pat : String) : Bool :=
  pat.toList.isSuffixOf s.toList

/-- Python substring containment (pat in s), modelled on the character list. -/
def strContains (s pat : String) : Bool :=
  decide (List.IsInfix pat.toList s.toList)

/-- Python url.split with slash, last component: the characters after the
last slash of the string (the whole string when it has no slash). -/
def lastUrlComponent (url : String) : String :=
  String.mk ((url.toList.reverse.takeWhile (fun c => c != '/')).reverse)

/-!
Segmented Download Engine: segment ranges (download_file_worker,
lines 1129-1160 of src/SwitchrootDepot.py).
-/

/-- Eligibility test for the multi-connection path, from
download_file_worker lines 1136-1140: range support advertised
(Accept-Ranges header differs from "none"), total size above 5 MiB,
and more than one configured connection. -/
def use_multiconnection (acceptRanges : String) (totalSize connections : Nat) : Bool :=
  acceptRanges != "none" && 5 * 1024 * 1024 < totalSize && 1 < connections

/-- segment_size = total_size // self.download_connections (line 1146). -/
def segment_size (totalSize connections : Nat) : Nat :=
  totalSize / connections

/-- The byte range (start, end) of segment i, from lines 1151-1154:
start = i * segment_size; end = start + segment_size - 1 for every segment
but the last, and total_size - 1 for the last segment.  Byte positions are
integers, as in the source. -/
def segmentRange (totalSize connections i : Nat) : Int × Int :=
  let segSize := segment_size totalSize connections
  let start : Int := (i : Int) * (segSize : Int)
  if i < connections - 1 then (start, start + (segSize : Int) - 1)
  else (start, (totalSize : Int) - 1)

/-- The list of segment ranges built by the loop at lines 1151-1157. -/
def segmentList (totalSize connections : Nat) : List (Int × Int) :=
  (List.range connections).map (segmentRange totalSize connections)

/-!
Reassembly (download_file_worker lines 1191-1197): each segment range
request for bytes start..end yields exactly those bytes of the remote
resource; the temp files are concatenated in index order.
-/

/-- The bytes a range request for positions p.1 .. p.2 (inclusive) of the
resource returns, assuming the server honours the range exactly. -/
def fetchRange (resource : List Nat) (p : Int × Int) : List Nat :=
  (resource.drop p.1.toNat).take (p.2 + 1 - p.1).toNat

/-- Concatenation of the segment temp files in ascending index order
(lines 1193-1197). -/
def combineSegments (resource : List Nat) (totalSize connections : Nat) : List Nat :=
  ((segmentList totalSize connections).map (fetchRange resource)).flatten

/-- A single-stream download of the resource (lines 1204-1216): the whole
body, in order. -/
def singleStreamBytes (resource : List Nat) : List Nat :=
  resource

/-- The cut points of the segment partition: segment i covers byte
positions cutPoint i to cutPoint (i+1) - 1. -/
def cutPoint (totalSize connections i : Nat) : Nat :=
  if i ≤ connections - 1 then i * segment_size totalSize connections else totalSize

theorem cutPoint_mono (S N : Nat) :
    ∀ i j, i ≤ j → cutPoint S N i ≤ cutPoint S N j := by
  intro i j hij
  unfold cutPoint
  by_cases hi : i ≤ N - 1
  · by_cases hj : j ≤ N - 1
    · simp only [hi, hj, if_pos]
      exact Nat.mul_le_mul_right _ hij
    · simp only [hi, hj, if_pos, if_neg, ite_true, ite_false]
      calc i * segment_size S N ≤ N * segment_size S N :=
            Nat.mul_le_mul_right _ (le_trans hi (Nat.sub_le _ _))
        _ ≤ S := by
            rw [Nat.mul_comm]
            exact Nat.div_mul_le_self S N
  · have hj : ¬ j ≤ N - 1 := fun h => hi (le_trans hij h)
    simp [hi, hj]

theorem segmentRange_fst (S N i : Nat) :
    (segmentRange S N i).1 = (i : Int) * (segment_size S N : Int) := by
  unfold segmentRange
  split <;> rfl

theorem segmentRange_lt (S N : Nat) (hN : 1 < N) (i j : Nat) (hij : i < j) (hj : j < N) :
    (segmentRange S N i).2 < (segmentRange S N j).1 := by
  have hi' : i < N - 1 := by omega
  rw [segmentRange_fst]
  have hsnd : (segmentRange S N i).2 =
      (i : Int) * (segment_size S N : Int) + (segment_size S N : Int) - 1 := by
    simp [segmentRange, if_pos hi']
  rw [hsnd]
  have h1 : ((i : Int) + 1) * (segment_size S N : Int) ≤ (j : Int) * (segment_size S N : Int) := by
    apply mul_le_mul_of_nonneg_right
    · exact_mod_cast (by omega : i + 1 ≤ j)
    · positivity
  ring_nf at h1 ⊢
  linarith

/-- C1: on every task run in multi-segment mode (total size above 5 MiB,
more than one connection, range support advertised), the generated segment
ranges partition the byte positions 0 to S-1 exactly: there are N segments,
segment 0 starts at byte 0, each segment before the last has width S div N
and ends right before the next segment starts, the last segment ends at
byte S-1, every byte position below S lies in some segment, and no byte
position lies in two distinct segments. -/
theorem segment_ranges_partition (ar : String) (S N : Nat)
    (h : use_multiconnection ar S N = true) :
    (segmentList S N).length = N ∧
    (segmentRange S N 0).1 = 0 ∧
    (∀ i, i + 1 < N →
      (segmentRange S N i).2 + 1 = (segmentRange S N (i + 1)).1 ∧
      (segmentRange S N i).2 - (segmentRange S N i).1 + 1 = (segment_size S N : Int)) ∧
    (segmentRange S N (N - 1)).2 = (S : Int) - 1 ∧
    (∀ k : Int, 0 ≤ k → k < (S : Int) →
      ∃ i, i < N ∧ (segmentRange S N i).1 ≤ k ∧ k ≤ (segmentRange S N i).2) ∧
    (∀ i j, i < N → j < N → i ≠ j → ∀ k : Int,
      (segmentRange S N i).1 ≤ k → k ≤ (segmentRange S N i).2 →
      ¬((segmentRange S N j).1 ≤ k ∧ k ≤ (segmentRange S N j).2)) := by
  have hb : (¬ ar = "none" ∧ 5 * 1024 * 1024 < S) ∧ 1 < N := by
    simpa [use_multiconnection, Bool.and_eq_true, decide_eq_true_eq] using h
  obtain ⟨⟨-, hS⟩, hN⟩ := hb
  refine ⟨?_, ?_, ?_, ?_, ?_, ?_⟩
  · simp [segmentList]
  · rw [segmentRange_fst]
    simp
  · intro i hi
    have hi' : i < N - 1 := by omega
    have hsnd : (segmentRange S N i).2 =
        (i : Int) * (segment_size S N : Int) + (segment_size S N : Int) - 1 := by
      simp [segmentRange, if_pos hi']
    constructor
    · rw [hsnd, segmentRange_fst]
      push_cast
      ring
    · rw [hsnd, segmentRange_fst]
      ring
  · have hlast : ¬ (N - 1 < N - 1) := lt_irrefl _
    simp [segmentRange, hlast]
  · intro k hk0 hkS
    by_cases hq0 : segment_size S N = 0
    · refine ⟨N - 1, by omega, ?_, ?_⟩
      · rw [segmentRange_fst, hq0]
        simp
        exact hk0
      · have hlast : ¬ (N - 1 < N - 1) := lt_irrefl _
        simp only [segmentRange, hlast, if_neg, ite_false]
        omega
    · have hqpos : 0 < segment_size S N := Nat.pos_of_ne_zero hq0
      have hkval : ((k.toNat : Nat) : Int) = k := Int.toNat_of_nonneg hk0
      have hknS : k.toNat < S := by omega
      by_cases hd : k.toNat / segment_size S N < N - 1
      · refine ⟨k.toNat / segment_size S N, by omega, ?_, ?_⟩
        · rw [segmentRange_fst]
          have h1 : (k.toNat / segment_size S N) * segment_size S N ≤ k.toNat :=
            Nat.div_mul_le_self _ _
          calc ((k.toNat / segment_size S N : Nat) : Int) * (segment_size S N : Int)
              = ((k.toNat / segment_size S N * segment_size S N : Nat) : Int) := by push_cast; ring
            _ ≤ ((k.toNat : Nat) : Int) := by exact_mod_cast h1
            _ = k := hkval
        · have hsnd : (segmentRange S N (k.toNat / segment_size S N)).2 =
              ((k.toNat / segment_size S N : Nat) : Int) * (segment_size S N : Int) +
                (segment_size S N : Int) - 1 := by
            simp [segmentRange, if_pos hd]
          rw [hsnd]
          have e1 : k.toNat / segment_size S N * segment_size S N + k.toNat % segment_size S N
              = k.toNat := by
            rw [Nat.mul_comm]
            exact Nat.div_add_mod _ _
          have e2 : k.toNat % segment_size S N < segment_size S N := Nat.mod_lt _ hqpos
          have e1' : ((k.toNat / segment_size S N : Nat) : Int) * (segment_size S N : Int) +
              ((k.toNat % segment_size S N : Nat) : Int) = ((k.toNat : Nat) : Int) := by
            exact_mod_cast e1
          have e2' : ((k.toNat % segment_size S N : Nat) : Int) < (segment_size S N : Int) := by
            exact_mod_cast e2
          have e3' : (0 : Int) ≤ ((k.toNat % segment_size S N : Nat) : Int) := by positivity
          linarith [e1', e2', e3', hkval]
      · refine ⟨N - 1, by omega, ?_, ?_⟩
        · rw [segmentRange_fst]
          have h1 : N - 1 ≤ k.toNat / segment_size S N := by omega
          have h2 : (N - 1) * segment_size S N ≤ k.toNat :=
            (Nat.le_div_iff_mul_le hqpos).mp h1
          calc ((N - 1 : Nat) : Int) * (segment_size S N : Int)
              = (((N - 1) * segment_size S N : Nat) : Int) := by push_cast; ring
            _ ≤ ((k.toNat : Nat) : Int) := by exact_mod_cast h2
            _ = k := hkval
        · have hlast : ¬ (N - 1 < N - 1) := lt_irrefl _
          simp only [segmentRange, hlast, if_neg, ite_false]
          omega
  · intro i j hi hj hne k hk1 hk2 hkj
    obtain ⟨hk3, hk4⟩ := hkj
    rcases Nat.lt_or_ge i j with hlt | hge
    · have hx := segmentRange_lt S N hN i j hlt hj
      linarith
    · have hlt : j < i := by omega
      have hx := segmentRange_lt S N hN j i hlt hi
      linarith

/-- Witness for the segment partition theorem at size 6 MiB with 4
connections and range support. -/
theorem segment_ranges_partition_witness :
    use_multiconnection "bytes" 6291456 4 = true ∧
    ((segmentList 6291456 4).length = 4 ∧
      (segmentRange 6291456 4 0).1 = 0 ∧
      (∀ i, i + 1 < 4 →
        (segmentRange 6291456 4 i).2 + 1 = (segmentRange 6291456 4 (i + 1)).1 ∧
        (segmentRange 6291456 4 i).2 - (segmentRange 6291456 4 i).1 + 1 =
          (segment_size 6291456 4 : Int)) ∧
      (segmentRange 6291456 4 (4 - 1)).2 = ((6291456 : Nat) : Int) - 1 ∧
      (∀ k : Int, 0 ≤ k → k < ((6291456 : Nat) : Int) →
        ∃ i, i < 4 ∧ (segmentRange 6291456 4 i).1 ≤ k ∧ k ≤ (segmentRange 6291456 4 i).2) ∧
      (∀ i j, i < 4 → j < 4 → i ≠ j → ∀ k : Int,
        (segmentRange 6291456 4 i).1 ≤ k → k ≤ (segmentRange 6291456 4 i).2 →
        ¬((segmentRange 6291456 4 j).1 ≤ k ∧ k ≤ (segmentRange 6291456 4 j).2))) :=
  ⟨by decide, segment_ranges_partition "bytes" 6291456 4 (by decide)⟩

theorem take_drop_glue {α : Type} (r : List α) (a b d : Nat) (hab : a ≤ b) (hbd : b ≤ d) :
    (r.drop a).take (b - a) ++ (r.drop b).take (d - b) = (r.drop a).take (d - a) := by
  have h1 : d - a = (b - a) + (d - b) := by omega
  have h2 : r.drop b = (r.drop a).drop (b - a) := by
    rw [List.drop_drop]
    congr 1
    omega
  rw [h1, List.take_add, h2]

theorem flatten_slices {α : Type} (r : List α) (c : Nat → Nat)
    (hc : ∀ i j, i ≤ j → c i ≤ c j) :
    ∀ n, ((List.range n).map (fun i => (r.drop (c i)).take (c (i + 1) - c i))).flatten
      = (r.drop (c 0)).take (c n - c 0) := by
  intro n
  induction n with
  | zero => simp
  | succ m ih =>
    rw [List.range_succ, List.map_append, List.flatten_append]
    simp only [List.map_cons, List.map_nil, List.flatten_cons, List.flatten_nil, List.append_nil]
    rw [ih]
    exact take_drop_glue r (c 0) (c m) (c (m + 1)) (hc 0 m (Nat.zero_le m)) (hc m (m + 1) (by omega))

theorem fetchRange_eq_slice (r : List Nat) (S N : Nat) (hN : 1 < N) :
    ∀ i, i < N → fetchRange r (segmentRange S N i)
      = (r.drop (cutPoint S N i)).take (cutPoint S N (i + 1) - cutPoint S N i) := by
  intro i hi
  by_cases hi' : i < N - 1
  · have hceq : cutPoint S N i = i * segment_size S N := by
      simp [cutPoint, (by omega : i ≤ N - 1)]
    have hceq1 : cutPoint S N (i + 1) = (i + 1) * segment_size S N := by
      simp [cutPoint, (by omega : i + 1 ≤ N - 1)]
    have hdiff : cutPoint S N (i + 1) - cutPoint S N i = segment_size S N := by
      rw [hceq, hceq1, Nat.succ_mul, Nat.add_sub_cancel_left]
    rw [hdiff, hceq]
    simp only [fetchRange, segmentRange, if_pos hi']
    have h1 : ((i : Int) * (segment_size S N : Int)).toNat = i * segment_size S N := by
      rw [← Nat.cast_mul, Int.toNat_natCast]
    have h2 : ((i : Int) * (segment_size S N : Int) + (segment_size S N : Int) - 1 + 1 -
        (i : Int) * (segment_size S N : Int)).toNat = segment_size S N := by
      have : ((i : Int) * (segment_size S N : Int) + (segment_size S N : Int) - 1 + 1 -
          (i : Int) * (segment_size S N : Int)) = (segment_size S N : Int) := by ring
      rw [this, Int.toNat_natCast]
    rw [h1, h2]
  · have hieq : i = N - 1 := by omega
    subst hieq
    have hceq : cutPoint S N (N - 1) = (N - 1) * segment_size S N := by
      simp [cutPoint]
    have hceq1 : cutPoint S N (N - 1 + 1) = S := by
      simp [cutPoint, (by omega : ¬ N - 1 + 1 ≤ N - 1)]
    rw [hceq, hceq1]
    simp only [fetchRange, segmentRange, if_neg hi']
    have h1 : (((N - 1 : Nat) : Int) * (segment_size S N : Int)).toNat
        = (N - 1) * segment_size S N := by
      rw [← Nat.cast_mul, Int.toNat_natCast]
    have h2 : ((S : Int) - 1 + 1 - ((N - 1 : Nat) : Int) * (segment_size S N : Int)).toNat
        = S - (N - 1) * segment_size S N := by
      have he : ((S : Int) - 1 + 1 - ((N - 1 : Nat) : Int) * (segment_size S N : Int))
          = ((S : Nat) : Int) - (((N - 1) * segment_size S N : Nat) : Int) := by
        push_cast
        ring
      rw [he, Int.toNat_sub]
    rw [h1, h2]

/-- C2: for a multi-segment task over a resource of S bytes, if every range
request for bytes start..end yields exactly those bytes, concatenating the
segment temp files in ascending index order yields exactly the byte stream a
single-stream download of the resource produces. -/
theorem reassembly_order_exact (r : List Nat) (ar : String) (S N : Nat)
    (hlen : r.length = S) (h : use_multiconnection ar S N = true) :
    combineSegments r S N = singleStreamBytes r := by
  have hb : (¬ ar = "none" ∧ 5 * 1024 * 1024 < S) ∧ 1 < N := by
    simpa [use_multiconnection, Bool.and_eq_true, decide_eq_true_eq] using h
  obtain ⟨⟨-, hS⟩, hN⟩ := hb
  unfold combineSegments singleStreamBytes segmentList
  rw [List.map_map]
  have hmap : (List.range N).map (fetchRange r ∘ segmentRange S N)
      = (List.range N).map
          (fun i => (r.drop (cutPoint S N i)).take (cutPoint S N (i + 1) - cutPoint S N i)) := by
    apply List.map_congr_left
    intro i hi
    exact fetchRange_eq_slice r S N hN i (List.mem_range.mp hi)
  rw [hmap, flatten_slices r _ (cutPoint_mono S N)]
  have hc0 : cutPoint S N 0 = 0 := by
    simp [cutPoint]
  have hcN : cutPoint S N N = S := by
    unfold cutPoint
    rw [if_neg (by omega : ¬ N ≤ N - 1)]
  rw [hc0, hcN]
  simp only [Nat.sub_zero, List.drop_zero]
  rw [← hlen, List.take_length]

/-- Witness for the reassembly theorem on a 6 MiB resource with 4
connections. -/
theorem reassembly_order_exact_witness :
    (List.replicate 6291456 (0 : Nat)).length = 6291456 ∧
    use_multiconnection "bytes" 6291456 4 = true ∧
    combineSegments (List.replicate 6291456 (0 : Nat)) 6291456 4
      = singleStreamBytes (List.replicate 6291456 (0 : Nat)) :=
  ⟨List.length_replicate 6291456 0, by decide,
    reassembly_order_exact (List.replicate 6291456 (0 : Nat)) "bytes" 6291456 4
      (List.length_replicate 6291456 0) (by decide)⟩

/-!
Variant Matcher: find_matching_gapps_repo, lines 555-583 of
src/SwitchrootDepot.py.
-/

/-- find_matching_gapps_repo (lines 555-583): first look for a repo name
equal to the exact pattern version.0.0-variant; otherwise the first name
starting with the version followed by a dot and ending with a dash followed
by the variant; otherwise no match. -/
def find_matching_gapps_repo (gappsRepoList : List String)
    (androidVersion gappsVariant : String) : Option String :=
  match gappsRepoList.find?
      (fun name => name == androidVersion ++ ".0.0-" ++ gappsVariant) with
  | some name => some name
  | none =>
      gappsRepoList.find? (fun name =>
        strStartsWith name (androidVersion ++ ".") && strEndsWith name ("-" ++ gappsVariant))

/-- C5: the Variant Matcher returns the candidate equal to the exact
pattern when one exists; otherwise the first candidate, in list order, that
starts with the version followed by a dot and ends with a dash followed by
the variant; otherwise none, and the two concrete examples from the spec
behave as stated. -/
theorem find_matching_gapps_repo_spec :
    (∀ (repos : List String) (v sfx : String),
      (v ++ ".0.0-" ++ sfx) ∈ repos →
        find_matching_gapps_repo repos v sfx = some (v ++ ".0.0-" ++ sfx)) ∧
    (∀ (repos : List String) (v sfx : String),
      (v ++ ".0.0-" ++ sfx) ∉ repos →
        find_matching_gapps_repo repos v sfx
          = repos.find? (fun name =>
              strStartsWith name (v ++ ".") && strEndsWith name ("-" ++ sfx))) ∧
    find_matching_gapps_repo ["14.0.0-arm64", "14.0.0-arm64-ATV", "16.0.0-arm64-ATV"]
      "14" "arm64-ATV" = some "14.0.0-arm64-ATV" ∧
    find_matching_gapps_repo ["14.0.0-arm64", "14.0.0-arm64-ATV", "16.0.0-arm64-ATV"]
      "15" "arm64-ATV" = none := by
  refine ⟨?_, ?_, ?_, ?_⟩
  · intro repos v sfx hmem
    have hsome : (repos.find? (fun name => name == v ++ ".0.0-" ++ sfx)).isSome :=
      List.find?_isSome.mpr ⟨v ++ ".0.0-" ++ sfx, hmem, by simp⟩
    obtain ⟨a, ha⟩ := Option.isSome_iff_exists.mp hsome
    have hae : a = v ++ ".0.0-" ++ sfx := by
      have hx := List.find?_some ha
      simpa using hx
    unfold find_matching_gapps_repo
    rw [ha, hae]
  · intro repos v sfx hmem
    have hnone : repos.find? (fun name => name == v ++ ".0.0-" ++ sfx) = none := by
      apply List.find?_eq_none.mpr
      intro x hx heq
      exact hmem (eq_of_beq heq ▸ hx)
    unfold find_matching_gapps_repo
    rw [hnone]
  · decide
  · decide

/-- Witness for the Variant Matcher theorem: the exact-match branch at the
concrete candidate list of the spec. -/
theorem find_matching_gapps_repo_spec_witness :
    ("14" ++ ".0.0-" ++ "arm64-ATV")
        ∈ ["14.0.0-arm64", "14.0.0-arm64-ATV", "16.0.0-arm64-ATV"] ∧
    find_matching_gapps_repo ["14.0.0-arm64", "14.0.0-arm64-ATV", "16.0.0-arm64-ATV"]
        "14" "arm64-ATV" = some ("14" ++ ".0.0-" ++ "arm64-ATV") :=
  ⟨by decide,
    find_matching_gapps_repo_spec.1 ["14.0.0-arm64", "14.0.0-arm64-ATV", "16.0.0-arm64-ATV"]
      "14" "arm64-ATV" (by decide)⟩

/-!
Scan Cache: load_last_scan, lines 64-79 of src/SwitchrootDepot.py.
-/

/-- The state of the cache file on disk: missing, unreadable or unparsable
(any exception while opening or parsing is caught and treated as a miss),
or a parsed record.  The record carries an optional scan_timestamp (the
source reads it with a default of 0 when the key is missing) and the list
of cached build rows (each row a flat list of strings). -/
inductive CacheFile where
  | absent
  | corrupt
  | record (scan_timestamp : Option Int) (builds : List (List String))
deriving DecidableEq

/-- load_last_scan (lines 64-79): return the parsed record when the file
exists, parses, and its age (now minus scan_timestamp, defaulting to 0) is
under 86400 seconds; otherwise return nothing, never an error. -/
def load_last_scan (file : CacheFile) (now : Int) :
    Option (Option Int × List (List String)) :=
  match file with
  | .absent => none
  | .corrupt => none
  | .record ts builds =>
      if now - ts.getD 0 < 86400 then some (ts, builds) else none

/-- C9: the Scan Cache load returns the saved record exactly when the file
holds a well-formed record whose scan timestamp is younger than 24 hours;
a fresh record is returned intact; a record aged 25 hours, a missing file
and a corrupt file all load as absent, without error. -/
theorem load_last_scan_spec :
    (∀ (file : CacheFile) (now : Int),
      (load_last_scan file now).isSome = true ↔
        ∃ ts builds, file = CacheFile.record ts builds ∧ now - ts.getD 0 < 86400) ∧
    (∀ (ts : Option Int) (builds : List (List String)) (now : Int),
      now - ts.getD 0 < 86400 →
        load_last_scan (CacheFile.record ts builds) now = some (ts, builds)) ∧
    (∀ (now : Int) (builds : List (List String)),
      load_last_scan (CacheFile.record (some (now - 90000)) builds) now = none) ∧
    (∀ (now : Int) (builds : List (List String)),
      load_last_scan (CacheFile.record (some (now - 3600)) builds) now
        = some (some (now - 3600), builds)) ∧
    (∀ now : Int, load_last_scan CacheFile.absent now = none) ∧
    (∀ now : Int, load_last_scan CacheFile.corrupt now = none) := by
  refine ⟨?_, ?_, ?_, ?_, fun now => rfl, fun now => rfl⟩
  · intro file now
    cases file with
    | absent => simp [load_last_scan]
    | corrupt => simp [load_last_scan]
    | record ts builds =>
        by_cases hfresh : now - ts.getD 0 < 86400
        · simp [load_last_scan, hfresh]
        · simp [load_last_scan, hfresh]
  · intro ts builds now hfresh
    simp [load_last_scan, hfresh]
  · intro now builds
    have hstale : ¬ (now - (Option.some (now - 90000)).getD 0 < 86400) := by
      simp only [Option.getD_some]
      omega
    simp [load_last_scan, hstale]
  · intro now builds
    have hfresh : now - (Option.some (now - 3600)).getD 0 < 86400 := by
      simp only [Option.getD_some]
      omega
    simp [load_last_scan, hfresh]

/-- Witness for the Scan Cache theorem: a one-hour-old record at a concrete
clock value is returned intact. -/
theorem load_last_scan_spec_witness :
    ((3600 : Int) - (Option.some (0 : Int)).getD 0 < 86400) ∧
    load_last_scan (CacheFile.record (some 0) [["row"]]) 3600
      = some (some 0, [["row"]]) :=
  ⟨by decide, load_last_scan_spec.2.1 (some 0) [["row"]] 3600 (by decide)⟩

/-!
Download Task Planner: the task-list construction of start_download_thread,
lines 888-1024 of src/SwitchrootDepot.py.
-/

/-- One task tuple as built by start_download_thread: url, filename,
sequence number, total task count, dist_type, device_type, and the
optional explicit relative path carried only by Android-Extras tasks. -/
structure DTask where
  url : String
  filename : String
  file_num : Nat
  total_files : Nat
  dist_type : String
  device_type : String
  file_path : Option String
deriving DecidableEq

/-- One entry of a build_files dictionary: filename, url, size. -/
structure BuildFile where
  name : String
  url : String
  size : Nat
deriving DecidableEq

/-- One entry of ANDROID_REQUIRED_FILES: name, url, explicit relative
path. -/
structure ReqFile where
  name : String
  url : String
  path : String
deriving DecidableEq

/-- One selected tree row, as read back in start_download_thread.  The
unified Android shape (dist_type Android with at least six tags, lines
916-953) carries the LineageOS url and size, the GApps url and size, the
device type and the parsed build_files dictionary; every other shape
(lines 955-980) carries a single url and size plus optional device type
and build_files.  A build_files value of none models an empty or
unparsable build_files_json (the source then stores nothing). -/
inductive SelectedItem where
  | unified (lineage_url gapps_url : String) (lineage_size gapps_size : Nat)
      (device_type : String) (build_files : Option (List BuildFile))
  | old (dist_type file_name file_url : String) (size_bytes : Nat)
      (device_type : String) (build_files : Option (List BuildFile))
deriving DecidableEq

/-- The loop state of start_download_thread: the task list, the set of
Android device types (Python set, modelled as a duplicate-free list in
insertion order; the properties proved do not depend on iteration order),
the per-device build_files dictionary, and the task counter. -/
structure PlanState where
  tasks : List DTask
  android_device_types : List String
  android_build_files : List (String × List BuildFile)
  task_num : Nat
deriving DecidableEq

/-- Adding a device type to the android_device_types set. -/
def insertDevice (s : List String) (d : String) : List String :=
  if d ∈ s then s else s ++ [d]

/-- Storing a build_files dictionary under a device type (dict assignment:
overwrite when the key exists). -/
def storeBuildFiles (m : List (String × List BuildFile)) (k : String)
    (v : List BuildFile) : List (String × List BuildFile) :=
  if m.any (fun p => p.1 == k) then
    m.map (fun p => if p.1 == k then (k, v) else p)
  else m ++ [(k, v)]

/-- Dictionary lookup in android_build_files. -/
def lookupBuildFiles (m : List (String × List BuildFile)) (k : String) :
    Option (List BuildFile) :=
  (m.find? (fun p => p.1 == k)).map (fun p => p.2)

/-- The LineageOS zip filename chosen at lines 942-943: the first
build_files key starting with lineage- and ending with .zip, else the
fallback name lineage.zip. -/
def lineageFileName (bf : Option (List BuildFile)) : String :=
  match bf with
  | some files =>
      match files.find?
          (fun f => strStartsWith f.name "lineage-" && strEndsWith f.name ".zip") with
      | some f => f.name
      | none => "lineage.zip"
  | none => "lineage.zip"

/-- One iteration of the selection loop of start_download_thread (lines
908-980).  Unified Android rows: a zero lineage size skips the whole row;
otherwise the device type is recorded, the build_files stored, a LineageOS
task appended, and a GApps task appended when the GApps url is non-empty
and its size positive.  Other rows: a zero size skips the row; otherwise
the device type is recorded when the dist_type is Android or GApps, the
build_files stored when the dist_type is Android, and one task appended. -/
def planStep (st : PlanState) (it : SelectedItem) : PlanState :=
  match it with
  | .unified lurl gurl lsize gsize dev bf =>
      if lsize = 0 then st
      else
        let dts := insertDevice st.android_device_types dev
        let bfs := match bf with
          | some files => storeBuildFiles st.android_build_files dev files
          | none => st.android_build_files
        let n1 := st.task_num + 1
        let t1 : DTask := ⟨lurl, lineageFileName bf, n1, 0, "Android", dev, none⟩
        if gurl ≠ "" ∧ 0 < gsize then
          { tasks := st.tasks ++
              [t1, ⟨gurl, lastUrlComponent gurl, n1 + 1, 0, "GApps", dev, none⟩],
            android_device_types := dts, android_build_files := bfs,
            task_num := n1 + 1 }
        else
          { tasks := st.tasks ++ [t1],
            android_device_types := dts, android_build_files := bfs,
            task_num := n1 }
  | .old dt fname furl size dev bf =>
      if size = 0 then st
      else
        let tracked := (dt = "Android" ∨ dt = "GApps") ∧ dev ≠ ""
        let dts := if tracked then insertDevice st.android_device_types dev
          else st.android_device_types
        let bfs :=
          if tracked ∧ dt = "Android" then
            match bf with
            | some files => storeBuildFiles st.android_build_files dev files
            | none => st.android_build_files
          else st.android_build_files
        { tasks := st.tasks ++ [⟨furl, fname, st.task_num + 1, 0, dt, dev, none⟩],
          android_device_types := dts, android_build_files := bfs,
          task_num := st.task_num + 1 }

/-- The skip condition of the build-file loop at line 989: the main
LineageOS zip and any file whose name contains super_empty.img. -/
def skipBuildFile (name : String) : Bool :=
  strStartsWith name "lineage-" || strContains name "super_empty.img"

/-- One iteration of the build-file loop at lines 987-1001: skip the main
zip and super_empty images, otherwise append one Android-Build task. -/
def buildFileStep (dev : String) (a : PlanState) (f : BuildFile) : PlanState :=
  if skipBuildFile f.name then a
  else
    { a with
      tasks := a.tasks ++
        [⟨f.url, f.name, a.task_num + 1, 0, "Android-Build", dev, none⟩],
      task_num := a.task_num + 1 }

/-- The build-file loop at lines 985-1001: one Android-Build task per
non-skipped entry of the device type's stored build_files. -/
def addBuildFileTasks (st : PlanState) (dev : String) : PlanState :=
  match lookupBuildFiles st.android_build_files dev with
  | none => st
  | some files => files.foldl (buildFileStep dev) st

/-- One iteration of the required-file loop at lines 1004-1015: append one
Android-Extras task carrying the entry's explicit path. -/
def requiredFileStep (dev : String) (a : PlanState) (r : ReqFile) : PlanState :=
  { a with
    tasks := a.tasks ++
      [⟨r.url, r.name, a.task_num + 1, 0, "Android-Extras", dev, some r.path⟩],
    task_num := a.task_num + 1 }

/-- The required-file loop at lines 1004-1015: one Android-Extras task per
entry of ANDROID_REQUIRED_FILES. -/
def addRequiredFileTasks (reqFiles : List ReqFile) (st : PlanState) (dev : String) :
    PlanState :=
  reqFiles.foldl (requiredFileStep dev) st

/-- The first pass of start_download_thread over the selected rows. -/
def planPassOne (items : List SelectedItem) : PlanState :=
  items.foldl planStep ⟨[], [], [], 0⟩

/-- The second pass (lines 983-1015): for every tracked Android device
type, the build-file tasks then the required-file tasks. -/
def planPassTwo (reqFiles : List ReqFile) (st : PlanState) : PlanState :=
  st.android_device_types.foldl
    (fun a dev => addRequiredFileTasks reqFiles (addBuildFileTasks a dev) dev) st

/-- The full planner of start_download_thread: both passes, then the
backfill at lines 1023-1024 setting every total task count to the final
list length while keeping all other fields. -/
def start_download_thread (items : List SelectedItem) (reqFiles : List ReqFile) :
    List DTask :=
  let st := planPassTwo reqFiles (planPassOne items)
  let total := st.tasks.length
  st.tasks.map (fun t => { t with total_files := total })

/-- C3 counterexample: a selected Android build whose build_files dictionary
records boot.img with size 0 still yields an Android-Build task for
boot.img — the build-file loop at lines 985-1001 applies no size check, so
a zero-size artifact does produce a DownloadTask. -/
theorem zero_size_artifact_counterexample :
    start_download_thread
        [SelectedItem.unified "urlL" "" 100 0 "Tablet"
          (some [⟨"boot.img", "urlB", 0⟩])] []
      = [⟨"urlL", "lineage.zip", 1, 2, "Android", "Tablet", none⟩,
         ⟨"urlB", "boot.img", 2, 2, "Android-Build", "Tablet", none⟩] := by
  rfl

/-- C3 (amended): a primary artifact of recorded size zero causes its whole
row to be skipped, a non-Android row of size zero is skipped, and a
companion artifact of size zero is omitted (the row then contributes only
its LineageOS task) — but profile-scoped build files are planned without
any size check. -/
theorem zero_size_artifact_skipped :
    (∀ (st : PlanState) (lurl gurl : String) (gsize : Nat) (dev : String)
        (bf : Option (List BuildFile)),
      planStep st (.unified lurl gurl 0 gsize dev bf) = st) ∧
    (∀ (st : PlanState) (dt fname furl dev : String) (bf : Option (List BuildFile)),
      planStep st (.old dt fname furl 0 dev bf) = st) ∧
    (∀ (st : PlanState) (lurl gurl : String) (lsize : Nat) (dev : String)
        (bf : Option (List BuildFile)),
      lsize ≠ 0 →
        (planStep st (.unified lurl gurl lsize 0 dev bf)).tasks
          = st.tasks ++
              [⟨lurl, lineageFileName bf, st.task_num + 1, 0, "Android", dev, none⟩]) := by
  refine ⟨?_, ?_, ?_⟩
  · intro st lurl gurl gsize dev bf
    simp [planStep]
  · intro st dt fname furl dev bf
    simp [planStep]
  · intro st lurl gurl lsize dev bf hsize
    simp [planStep, hsize]

/-- Witness for the amended zero-size theorem: a row of size 5 with a
zero-size companion contributes exactly its LineageOS task. -/
theorem zero_size_artifact_skipped_witness :
    (5 : Nat) ≠ 0 ∧
    (planStep ⟨[], [], [], 0⟩ (SelectedItem.unified "u" "g" 5 0 "d" none)).tasks
      = [⟨"u", "lineage.zip", 1, 0, "Android", "d", none⟩] :=
  ⟨by decide,
    zero_size_artifact_skipped.2.2 ⟨[], [], [], 0⟩ "u" "g" 5 "d" none (by decide)⟩

/-- C7: every task of the fully expanded plan carries a total task count
equal to the final task list length, and the backfill pass changes no
other field of any task. -/
theorem backfill_total_task_count (items : List SelectedItem) (reqFiles : List ReqFile) :
    (start_download_thread items reqFiles).length
        = (planPassTwo reqFiles (planPassOne items)).tasks.length ∧
    (∀ i : Nat, (start_download_thread items reqFiles)[i]?
        = ((planPassTwo reqFiles (planPassOne items)).tasks[i]?).map
            (fun (t : DTask) => { t with
              total_files := (planPassTwo reqFiles (planPassOne items)).tasks.length })) ∧
    (∀ t ∈ start_download_thread items reqFiles,
      t.total_files = (start_download_thread items reqFiles).length) := by
  refine ⟨?_, ?_, ?_⟩
  · simp [start_download_thread]
  · intro i
    simp [start_download_thread, List.getElem?_map]
  · intro t ht
    simp only [start_download_thread, List.mem_map] at ht
    obtain ⟨t0, ht0, rfl⟩ := ht
    simp [start_download_thread]

/-- Witness for the backfill theorem on a one-row selection. -/
theorem backfill_total_task_count_witness :
    (⟨"u", "f", 1, 1, "Linux", "", none⟩ : DTask)
        ∈ start_download_thread [SelectedItem.old "Linux" "f" "u" 3 "" none] [] ∧
    (⟨"u", "f", 1, 1, "Linux", "", none⟩ : DTask).total_files
      = (start_download_thread [SelectedItem.old "Linux" "f" "u" 3 "" none] []).length :=
  ⟨by decide,
    (backfill_total_task_count [SelectedItem.old "Linux" "f" "u" 3 "" none] []).2.2
      ⟨"u", "f", 1, 1, "Linux", "", none⟩ (by decide)⟩

/-- A selected row that is not spoofing the Android-Extras category: every
row the tree can actually hold has dist_type Linux, Android or GApps. -/
def rowNotExtras : SelectedItem → Bool
  | .old dt _ _ _ _ _ => dt != "Android-Extras"
  | .unified _ _ _ _ _ _ => true

/-- The (device type, filename) keys of the Android-Extras tasks of a task
list, in order. -/
def extrasKeys (ts : List DTask) : List (String × String) :=
  (ts.filter (fun t => t.dist_type == "Android-Extras")).map
    (fun t => (t.device_type, t.filename))

theorem extrasKeys_append (a b : List DTask) :
    extrasKeys (a ++ b) = extrasKeys a ++ extrasKeys b := by
  simp [extrasKeys, List.filter_append]

theorem planStep_device_types (st : PlanState) (it : SelectedItem) :
    (planStep st it).android_device_types = st.android_device_types ∨
    ∃ d, (planStep st it).android_device_types = insertDevice st.android_device_types d := by
  cases it with
  | unified lurl gurl lsize gsize dev bf =>
      by_cases h0 : lsize = 0
      · left
        simp [planStep, h0]
      · right
        refine ⟨dev, ?_⟩
        by_cases hg : gurl ≠ "" ∧ 0 < gsize
        · simp [planStep, h0, hg]
        · simp [planStep, h0, hg]
  | old dt fname furl size dev bf =>
      by_cases h0 : size = 0
      · left
        simp [planStep, h0]
      · by_cases htr : (dt = "Android" ∨ dt = "GApps") ∧ dev ≠ ""
        · right
          exact ⟨dev, by simp [planStep, h0, htr]⟩
        · left
          simp [planStep, h0, htr]

theorem planStep_extrasKeys (st : PlanState) (it : SelectedItem)
    (h : rowNotExtras it = true) :
    extrasKeys (planStep st it).tasks = extrasKeys st.tasks := by
  cases it with
  | unified lurl gurl lsize gsize dev bf =>
      by_cases h0 : lsize = 0
      · simp [planStep, h0]
      · by_cases hg : gurl ≠ "" ∧ 0 < gsize
        · simp [planStep, h0, hg, extrasKeys_append, extrasKeys]
        · simp [planStep, h0, hg, extrasKeys_append, extrasKeys]
  | old dt fname furl size dev bf =>
      have hdt : (dt == "Android-Extras") = false := by
        simpa [rowNotExtras, bne] using h
      by_cases h0 : size = 0
      · simp [planStep, h0]
      · simp [planStep, h0, extrasKeys_append, extrasKeys, hdt]

theorem foldl_planStep_extrasKeys :
    ∀ (items : List SelectedItem) (st : PlanState),
    (∀ it ∈ items, rowNotExtras it = true) →
    extrasKeys ((items.foldl planStep st).tasks) = extrasKeys st.tasks
  | [], _, _ => rfl
  | it :: rest, st, h => by
      rw [List.foldl_cons,
        foldl_planStep_extrasKeys rest _ (fun x hx => h x (List.mem_cons_of_mem _ hx))]
      exact planStep_extrasKeys st it (h it (List.mem_cons_self _ _))

theorem insertDevice_nodup (s : List String) (d : String) (h : s.Nodup) :
    (insertDevice s d).Nodup := by
  unfold insertDevice
  split
  · exact h
  · rename_i hd
    simp [List.nodup_append, h, hd]

theorem planStep_devices_nodup (st : PlanState) (it : SelectedItem)
    (h : st.android_device_types.Nodup) :
    (planStep st it).android_device_types.Nodup := by
  rcases planStep_device_types st it with heq | ⟨d, heq⟩
  · rw [heq]
    exact h
  · rw [heq]
    exact insertDevice_nodup _ _ h

theorem foldl_planStep_devices_nodup :
    ∀ (items : List SelectedItem) (st : PlanState),
    st.android_device_types.Nodup →
    ((items.foldl planStep st).android_device_types).Nodup
  | [], _, h => h
  | it :: rest, st, h =>
      foldl_planStep_devices_nodup rest _ (planStep_devices_nodup st it h)

theorem foldl_buildFileStep_extrasKeys (dev : String) :
    ∀ (files : List BuildFile) (a : PlanState),
    extrasKeys ((files.foldl (buildFileStep dev) a).tasks) = extrasKeys a.tasks
  | [], _ => rfl
  | f :: rest, a => by
      rw [List.foldl_cons, foldl_buildFileStep_extrasKeys dev rest _]
      unfold buildFileStep
      split
      · rfl
      · simp [extrasKeys_append, extrasKeys]

theorem addBuildFileTasks_extrasKeys (st : PlanState) (dev : String) :
    extrasKeys (addBuildFileTasks st dev).tasks = extrasKeys st.tasks := by
  unfold addBuildFileTasks
  cases lookupBuildFiles st.android_build_files dev with
  | none => rfl
  | some files => exact foldl_buildFileStep_extrasKeys dev files st

theorem foldl_requiredFileStep_extrasKeys (dev : String) :
    ∀ (rs : List ReqFile) (a : PlanState),
    extrasKeys ((rs.foldl (requiredFileStep dev) a).tasks)
      = extrasKeys a.tasks ++ rs.map (fun r => (dev, r.name))
  | [], a => by simp
  | r :: rest, a => by
      rw [List.foldl_cons, foldl_requiredFileStep_extrasKeys dev rest _]
      simp [requiredFileStep, extrasKeys_append, extrasKeys]

theorem foldl_passTwo_extrasKeys (reqFiles : List ReqFile) :
    ∀ (devs : List String) (a : PlanState),
    extrasKeys ((devs.foldl
        (fun b dev => addRequiredFileTasks reqFiles (addBuildFileTasks b dev) dev) a).tasks)
      = extrasKeys a.tasks
          ++ devs.flatMap (fun d => reqFiles.map (fun r => (d, r.name)))
  | [], a => by simp
  | dev :: rest, a => by
      rw [List.foldl_cons, foldl_passTwo_extrasKeys reqFiles rest _]
      unfold addRequiredFileTasks
      rw [foldl_requiredFileStep_extrasKeys dev reqFiles _, addBuildFileTasks_extrasKeys]
      simp [List.flatMap_cons, List.append_assoc]

theorem extrasKeys_backfill (ts : List DTask) (n : Nat) :
    extrasKeys (ts.map (fun t => { t with total_files := n })) = extrasKeys ts := by
  unfold extrasKeys
  rw [List.filter_map, List.map_map]
  rfl

theorem extrasKeys_final (items : List SelectedItem) (reqFiles : List ReqFile)
    (h : ∀ it ∈ items, rowNotExtras it = true) :
    extrasKeys (start_download_thread items reqFiles)
      = ((planPassOne items).android_device_types).flatMap
          (fun d => reqFiles.map (fun r => (d, r.name))) := by
  unfold start_download_thread
  rw [extrasKeys_backfill]
  unfold planPassTwo
  rw [foldl_passTwo_extrasKeys]
  unfold planPassOne
  rw [foldl_planStep_extrasKeys items _ h]
  rfl

theorem filter_name_length (names : List String) (rname : String) :
    names.Nodup → rname ∈ names →
    (names.filter (fun nm => nm == rname)).length = 1 := by
  induction names with
  | nil =>
      intro _ hmem
      exact absurd hmem (List.not_mem_nil _)
  | cons n rest ih =>
      intro hnd hmem
      rw [List.filter_cons]
      by_cases hn : n = rname
      · subst hn
        have hrest : rest.filter (fun nm => nm == n) = [] := by
          apply List.filter_eq_nil_iff.mpr
          intro x hx hbeq
          exact (List.nodup_cons.mp hnd).1 ((eq_of_beq hbeq) ▸ hx)
        simp [hrest]
      · have hbeq : (n == rname) = false := beq_eq_false_iff_ne.mpr hn
        simp only [hbeq, Bool.false_eq_true, if_false]
        have hmem' : rname ∈ rest := by
          cases List.mem_cons.mp hmem with
          | inl heq => exact absurd heq.symm hn
          | inr h => exact h
        exact ih (List.nodup_cons.mp hnd).2 hmem'

theorem filter_flatMap_keys (reqFiles : List ReqFile) (dev rname : String)
    (hnodup : (reqFiles.map (fun r => r.name)).Nodup)
    (hname : rname ∈ reqFiles.map (fun r => r.name)) :
    ∀ (devs : List String), devs.Nodup → dev ∈ devs →
    ((devs.flatMap (fun d => reqFiles.map (fun r => (d, r.name)))).filter
        (fun p => p.1 == dev && p.2 == rname)).length = 1
  | [], _, hdev => absurd hdev (List.not_mem_nil _)
  | d :: rest, hnd, hdev => by
      rw [List.flatMap_cons, List.filter_append, List.length_append]
      by_cases hd : d = dev
      · subst hd
        have h1 : ((reqFiles.map (fun r => (d, r.name))).filter
            (fun p => p.1 == d && p.2 == rname)).length = 1 := by
          rw [List.filter_map, List.length_map]
          have hcong : reqFiles.filter
              ((fun (p : String × String) => p.1 == d && p.2 == rname) ∘
                (fun r => (d, r.name)))
              = reqFiles.filter (fun r => r.name == rname) := by
            apply List.filter_congr
            intro r _
            simp [Function.comp]
          rw [hcong]
          have hmap : reqFiles.filter (fun r => r.name == rname)
              = reqFiles.filter ((fun nm => nm == rname) ∘ (fun r => r.name)) := rfl
          have hlen : (reqFiles.filter (fun r => r.name == rname)).length
              = ((reqFiles.map (fun r => r.name)).filter (fun nm => nm == rname)).length := by
            rw [List.filter_map, List.length_map]
            rfl
          rw [hlen]
          exact filter_name_length _ rname hnodup hname
        have h2 : ((rest.flatMap (fun d' => reqFiles.map (fun r => (d', r.name)))).filter
            (fun p => p.1 == d && p.2 == rname)).length = 0 := by
          rw [List.length_eq_zero]
          apply List.filter_eq_nil_iff.mpr
          intro p hp hpred
          obtain ⟨d', hd', hin⟩ := List.mem_flatMap.mp hp
          obtain ⟨r, -, hr⟩ := List.mem_map.mp hin
          have hfst : p.1 = d' := (congrArg Prod.fst hr).symm
          have hbeq : (p.1 == d) = true := (Bool.and_eq_true _ _ ▸ hpred).1
          have : d' = d := hfst ▸ eq_of_beq hbeq
          exact (List.nodup_cons.mp hnd).1 (this ▸ hd')
        omega
      · have h1 : ((reqFiles.map (fun r => (d, r.name))).filter
            (fun p => p.1 == dev && p.2 == rname)).length = 0 := by
          rw [List.length_eq_zero]
          apply List.filter_eq_nil_iff.mpr
          intro p hp hpred
          obtain ⟨r, -, hr⟩ := List.mem_map.mp hp
          have hfst : p.1 = d := (congrArg Prod.fst hr).symm
          have hbeq : (p.1 == dev) = true := (Bool.and_eq_true _ _ ▸ hpred).1
          exact hd (hfst ▸ eq_of_beq hbeq)
        have hdev' : dev ∈ rest := by
          cases List.mem_cons.mp hdev with
          | inl heq => exact absurd heq.symm hd
          | inr hmem => exact hmem
        have h2 := filter_flatMap_keys reqFiles dev rname hnodup hname rest
          (List.nodup_cons.mp hnd).2 hdev'
        omega

theorem filter_extras_bridge (ts : List DTask) (dev rname : String) :
    (ts.filter (fun t => t.dist_type == "Android-Extras" &&
        (t.device_type == dev && t.filename == rname))).length
      = ((extrasKeys ts).filter (fun p => p.1 == dev && p.2 == rname)).length := by
  unfold extrasKeys
  rw [List.filter_map, List.length_map, List.filter_filter]
  congr 1
  apply List.filter_congr
  intro t _
  simp [Function.comp, Bool.and_comm]

/-- C6: when the selection tracks a device profile (so the profile is in
the planner's device-type set) the final task list holds exactly one
Android-Extras task per required-file name for that profile, however many
selected rows share the profile.  The hypotheses say the static
required-file names are distinct and no selected row spoofs the
Android-Extras category. -/
theorem extras_deduplicated (items : List SelectedItem) (reqFiles : List ReqFile)
    (dev rname : String)
    (hrows : ∀ it ∈ items, rowNotExtras it = true)
    (hnodup : (reqFiles.map (fun r => r.name)).Nodup)
    (hdev : dev ∈ (planPassOne items).android_device_types)
    (hname : rname ∈ reqFiles.map (fun r => r.name)) :
    ((start_download_thread items reqFiles).filter
        (fun t => t.dist_type == "Android-Extras" &&
          (t.device_type == dev && t.filename == rname))).length = 1 := by
  rw [filter_extras_bridge, extrasKeys_final items reqFiles hrows]
  exact filter_flatMap_keys reqFiles dev rname hnodup hname
    (planPassOne items).android_device_types
    (foldl_planStep_devices_nodup items ⟨[], [], [], 0⟩ List.nodup_nil)
    hdev

/-- Witness for the deduplication theorem: two selected rows sharing the
profile Tab still give exactly one Extras task for the single required
file. -/
theorem extras_deduplicated_witness :
    (∀ it ∈ [SelectedItem.unified "u1" "" 6 0 "Tab" none,
        SelectedItem.unified "u2" "" 7 0 "Tab" none], rowNotExtras it = true) ∧
    (([ReqFile.mk "r.bmp" "ru" "switchroot/android/r.bmp"].map
        (fun r => r.name)).Nodup) ∧
    "Tab" ∈ (planPassOne [SelectedItem.unified "u1" "" 6 0 "Tab" none,
        SelectedItem.unified "u2" "" 7 0 "Tab" none]).android_device_types ∧
    "r.bmp" ∈ [ReqFile.mk "r.bmp" "ru" "switchroot/android/r.bmp"].map
        (fun r => r.name) ∧
    ((start_download_thread
        [SelectedItem.unified "u1" "" 6 0 "Tab" none,
          SelectedItem.unified "u2" "" 7 0 "Tab" none]
        [ReqFile.mk "r.bmp" "ru" "switchroot/android/r.bmp"]).filter
        (fun t => t.dist_type == "Android-Extras" &&
          (t.device_type == "Tab" && t.filename == "r.bmp"))).length = 1 :=
  ⟨by decide, by decide, by decide, by decide,
    extras_deduplicated
      [SelectedItem.unified "u1" "" 6 0 "Tab" none,
        SelectedItem.unified "u2" "" 7 0 "Tab" none]
      [ReqFile.mk "r.bmp" "ru" "switchroot/android/r.bmp"]
      "Tab" "r.bmp" (by decide) (by decide) (by decide) (by decide)⟩

/-!
Segmented Download Engine and Pool Orchestrator error handling:
download_file_worker (lines 1075-1253) and download_files_pool (lines
1029-1057) of src/SwitchrootDepot.py.
-/

/-- The class of an exception raised during a transfer: a
requests.RequestException, or anything else. -/
inductive ExcKind where
  | request
  | other
deriving DecidableEq

/-- What happens while one task's worker runs: everything succeeds, the
destination-directory creation raises (os.makedirs runs before the try
block, lines 1084-1122), or something inside the try block raises (the
size probe, a segment fetch, the single-stream read, or reassembly). -/
inductive WorkerEvent where
  | ok
  | mkdirFail
  | transferFail (kind : ExcKind)
deriving DecidableEq

/-- The observable outcome of one worker run: whether an exception escapes
the worker, whether the partial destination file was removed, whether the
segment temp files were removed, and whether the completed counter was
incremented. -/
structure WorkerResult where
  propagates : Bool
  destRemoved : Bool
  tempsRemoved : Bool
  incremented : Bool
deriving DecidableEq

/-- Control flow of download_file_worker (lines 1075-1253).  Destination
directory creation runs before the try block, so its exception is not
caught and propagates to the pool.  A requests.RequestException inside the
try block is caught at lines 1234-1245: the partial destination file and
the segment temp files are removed and nothing is re-raised.  Any other
exception is caught at lines 1246-1253: only the segment temp files are
removed, the destination file stays, nothing is re-raised.  On success no
stray temp file remains and the counter is incremented under the lock
(lines 1227-1230), strictly after the transfer finished. -/
def download_file_worker : WorkerEvent → WorkerResult
  | .ok => ⟨false, false, true, true⟩
  | .mkdirFail => ⟨true, false, false, false⟩
  | .transferFail .request => ⟨false, true, true, false⟩
  | .transferFail .other => ⟨false, false, true, false⟩

/-- The device types collected by download_files_pool (lines 1034-1041):
tasks whose dist_type is Android, Android-Build or Android-Extras and
whose device type is non-empty. -/
def poolDeviceTypes (tasks : List DTask) : List String :=
  tasks.foldl (fun s t =>
    if (t.dist_type = "Android" ∨ t.dist_type = "Android-Build" ∨
        t.dist_type = "Android-Extras") ∧ t.device_type ≠ "" then
      insertDevice s t.device_type
    else s) []

/-- download_files_pool (lines 1029-1057): every submitted task's worker
runs exactly once with that task's own event (each future.result call is
wrapped in its own try/except, so even a propagating worker exception is
only logged); after all futures return, create_android_ini runs for every
tracked device type, a set computed from the task list alone. -/
def download_files_pool (taskEvents : List (DTask × WorkerEvent)) :
    List WorkerResult × List String :=
  (taskEvents.map (fun te => download_file_worker te.2),
   poolDeviceTypes (taskEvents.map (fun te => te.1)))

/-- The completed-downloads counter after the first k tasks (in completion
order) have terminated: the number of them whose worker incremented it. -/
def completed_downloads_after (events : List WorkerEvent) (k : Nat) : Nat :=
  ((events.take k).map download_file_worker).countP (fun r => r.incremented)

/-- C4 counterexample: on a transfer error the worker does not surface the
error to the caller (the exception is caught and only logged), and on a
non-request exception the partial destination file is not removed
either. -/
theorem transfer_error_counterexample :
    (download_file_worker (.transferFail .request)).propagates = false ∧
    (download_file_worker (.transferFail .other)).destRemoved = false :=
  ⟨rfl, rfl⟩

/-- C4 (amended): on an unrecoverable transfer error the worker cleans up
and swallows the error — a request-level error removes the partial
destination file and the segment temp files, any other error removes only
the temp files, neither is surfaced to the caller, the counter stays
unincremented — no retry happens (each task is processed exactly once)
and sibling tasks are unaffected (each task's result is the worker applied
to that task's own event alone). -/
theorem transfer_error_cleanup :
    download_file_worker (.transferFail .request)
      = ⟨false, true, true, false⟩ ∧
    download_file_worker (.transferFail .other)
      = ⟨false, false, true, false⟩ ∧
    (∀ taskEvents : List (DTask × WorkerEvent),
      ((download_files_pool taskEvents).1).length = taskEvents.length) ∧
    (∀ (taskEvents : List (DTask × WorkerEvent)) (i : Nat),
      ((download_files_pool taskEvents).1)[i]?
        = (taskEvents[i]?).map (fun te => download_file_worker te.2)) := by
  refine ⟨rfl, rfl, ?_, ?_⟩
  · intro taskEvents
    simp [download_files_pool]
  · intro taskEvents i
    simp [download_files_pool]

/-- C8: during a run the completed counter starts at zero, never
decreases, grows by at most one per terminated task, never exceeds the
total number of tasks, and is incremented exactly by the successful
tasks. -/
theorem completed_count_monotone_bounded :
    (∀ events : List WorkerEvent, completed_downloads_after events 0 = 0) ∧
    (∀ (events : List WorkerEvent) (k : Nat),
      completed_downloads_after events k ≤ completed_downloads_after events (k + 1)) ∧
    (∀ (events : List WorkerEvent) (k : Nat),
      completed_downloads_after events (k + 1)
        ≤ completed_downloads_after events k + 1) ∧
    (∀ (events : List WorkerEvent) (k : Nat),
      completed_downloads_after events k ≤ events.length) ∧
    (∀ e : WorkerEvent, (download_file_worker e).incremented = true ↔ e = .ok) := by
  refine ⟨fun _ => rfl, ?_, ?_, ?_, ?_⟩
  · intro events k
    unfold completed_downloads_after
    rw [List.take_succ, List.map_append, List.countP_append]
    exact Nat.le_add_right _ _
  · intro events k
    unfold completed_downloads_after
    rw [List.take_succ, List.map_append, List.countP_append]
    have hone : ((events[k]?.toList).map download_file_worker).countP
        (fun r => r.incremented) ≤ 1 := by
      cases hk : events[k]? with
      | none => simp
      | some e =>
          simp only [Option.toList_some, List.map_cons, List.map_nil]
          cases hinc : (download_file_worker e).incremented <;>
            simp [List.countP_cons, hinc]
    omega
  · intro events k
    unfold completed_downloads_after
    calc ((events.take k).map download_file_worker).countP (fun r => r.incremented)
        ≤ ((events.take k).map download_file_worker).length :=
          List.countP_le_length _
      _ = (events.take k).length := List.length_map _ _
      _ ≤ events.length := by
          rw [List.length_take]
          omega
  · intro e
    cases e with
    | ok => simp [download_file_worker]
    | mkdirFail => simp [download_file_worker]
    | transferFail k => cases k <;> simp [download_file_worker]

/-- C10: the worker lets an exception escape exactly when the pre-transfer
destination-directory creation fails; every exception inside the transfer
(size probe, segment or single-stream read, reassembly) is caught, never
reaches the pool's per-future handler, and leaves the counter
unincremented; and the per-profile finalization list is computed from the
task list alone, so it runs whatever the worker outcomes were. -/
theorem worker_propagation_spec :
    (∀ e : WorkerEvent, (download_file_worker e).propagates = true ↔ e = .mkdirFail) ∧
    (∀ k : ExcKind, (download_file_worker (.transferFail k)).propagates = false ∧
      (download_file_worker (.transferFail k)).incremented = false) ∧
    (∀ taskEvents : List (DTask × WorkerEvent),
      (download_files_pool taskEvents).2
        = poolDeviceTypes (taskEvents.map (fun te => te.1))) := by
  refine ⟨?_, ?_, fun taskEvents => rfl⟩
  · intro e
    cases e with
    | ok => simp [download_file_worker]
    | mkdirFail => simp [download_file_worker]
    | transferFail k => cases k <;> simp [download_file_worker]
  · intro k
    cases k <;> exact ⟨rfl, rfl⟩
